import Mathlib

/-!
Verification of the axopy dataflow core: the rolling-window `Windower`,
the `segment_indices` / `segment` functions, the `Pipeline` DAG scheduler,
and the consumer tasks (`Oscilloscope`, `BarPlotter`, `PolarPlotter`).

The repository source under `src/` provides only the package exports
(`axopy/pipeline/__init__.py`), the consumer tasks
(`axopy/task/common.py`) and an example script; the implementations of
`Windower`, `segment_indices`, `segment`, `Block` and `Pipeline`
(`axopy/pipeline/common.py`, `sources.py`, `core.py`) are not included,
so those components are modelled here from the specification's words
(§3, §4.2, §4.3, §4.4 of spec.md).  The consumer tasks are embedded
directly from `src/axopy/task/common.py`.

Data is multichannel: an array of shape (channels, samples) is
represented along the sample axis as a list of columns, one column
(one `Sample`, a list of per-channel values) per sample instant.
-/

/-- One sample instant: a column holding one value per channel. -/
abbrev Sample := List Int

/-- The all-zero column for a given channel count. -/
def zeroSample (channels : Nat) : Sample := List.replicate channels 0

/-- The last `k` elements of a list (the most recent `k` samples). -/
def lastN (k : Nat) (xs : List α) : List α := xs.drop (xs.length - k)

/-- Modelled from the spec: the `Windower` state (axopy/pipeline/common.py
is not under src/).  Spec §3: "a fixed-capacity buffer of shape
(channels, window_length), plus a fill counter"; the buffer is stored as
`window_length` columns of `channels` entries each. -/
structure Windower where
  window_length : Nat
  channels : Nat
  buffer : List Sample
  filled : Nat
deriving Repr, DecidableEq

namespace Windower

/-- Modelled from the spec: construction zero-initializes the buffer
(spec §4.3: "buffer is zero-initialized at construction") and the fill
counter starts at zero. -/
def new (channels window_length : Nat) : Windower :=
  ⟨window_length, channels, List.replicate window_length (zeroSample channels), 0⟩

/-- Modelled from the spec (§4.3), `Windower.process`:
if chunk length ≥ window_length the new buffer is exactly the last
`window_length` samples of the chunk (older buffered content fully
discarded); otherwise the buffer is shifted left by the chunk length
(discarding the oldest chunk-length samples) and the chunk appended at
the end.  The full buffer is returned. -/
def process (w : Windower) (chunk : List Sample) : Windower × List Sample :=
  let buf :=
    if w.window_length ≤ chunk.length then
      chunk.drop (chunk.length - w.window_length)
    else
      w.buffer.drop chunk.length ++ chunk
  ({ w with buffer := buf,
            filled := min w.window_length (w.filled + chunk.length) }, buf)

/-- Modelled from the spec (§4.3): "`reset()` zero-fills the buffer and
clears the fill counter." -/
def reset (w : Windower) : Windower :=
  { w with buffer := List.replicate w.window_length (zeroSample w.channels),
           filled := 0 }

/-- Feed a sequence of chunks, collecting the returned windows. -/
def processAll (w : Windower) (chunks : List (List Sample)) :
    Windower × List (List Sample) :=
  match chunks with
  | [] => (w, [])
  | c :: cs =>
    let (w', out) := w.process c
    let (w'', outs) := w'.processAll cs
    (w'', out :: outs)

end Windower

namespace sources

/-- Modelled from the spec (§4.4): `segment_indices(N, L, S)` produces the
ordered finite sequence of start offsets `0, S, 2S, …` such that
`start + L ≤ N`; any remainder shorter than `L` is dropped. -/
def segment_indices (N L S : Nat) : List Nat :=
  if L ≤ N then (List.range ((N - L) / S + 1)).map (fun i => i * S) else []

/-- Modelled from the spec (§4.4): `segment(data, L, S)` returns, for each
start offset of `segment_indices`, the slice `data[..., start:start+L]`
along the sample axis, in the same order. -/
def segment (data : List Sample) (L S : Nat) : List (List Sample) :=
  (segment_indices data.length L S).map (fun s => (data.drop s).take L)

end sources

/-! ### Pipeline data model

Modelled from the spec (axopy/pipeline/core.py is not under src/):
values flowing between units, the processing-unit contract, the graph of
named units, construction-time validation and the cached topological
order (spec §3, §4.1, §4.2, §7). -/

/-- Values passed between processing units: a multichannel array (a list
of sample columns) or an ordered collection of upstream outputs
(spec §4.2: "a unit with multiple upstreams receives them as an ordered
collection in the exact order declared at construction"). -/
inductive Val where
  | arr : List Sample → Val
  | tuple : List Val → Val

/-- Modelled from the spec (§4.1, §7): the error a unit raises when the
input rank or channel count does not match what the unit requires. -/
inductive ShapeError where
  | badRank
  | badChannels (expected got : Nat)
deriving Repr, DecidableEq

/-- Modelled from the spec (§3, §4.1): a processing unit owns an initial
state, a current state, and a step function `state → input →
(new state, output)` which may fail with a `ShapeError`. -/
structure Block where
  init : Val
  state : Val
  step : Val → Val → Except ShapeError (Val × Val)

/-- Restore a unit to its post-construction state (spec §4.1). -/
def Block.reset (b : Block) : Block := { b with state := b.init }

/-- An upstream declaration: either the sentinel "external input" or the
name of another unit (spec §3). -/
inductive Src where
  | input : Src
  | unit : String → Src
deriving Repr, DecidableEq, BEq

/-- One node of the pipeline graph: a unique unit name, the unit, and
the ordered list of upstream sources (spec §3). -/
structure GraphEntry where
  name : String
  block : Block
  upstream : List Src

/-- Modelled from the spec (§7): the construction-time error. -/
inductive ConfigurationError where
  | duplicateName
  | danglingReference
  | cycle
  | badTerminal
deriving Repr, DecidableEq

/-- Every upstream reference resolves to a declared unit name. -/
def refsOkB (g : List GraphEntry) : Bool :=
  g.all fun e => e.upstream.all fun s =>
    match s with
    | .input => true
    | .unit n => (g.map GraphEntry.name).contains n

/-- The terminal candidates: unit names referenced by no node
(spec §3: "exactly one terminal node (unreferenced by any other node)
supplies the pipeline's result"). -/
def terminals (g : List GraphEntry) : List String :=
  (g.map GraphEntry.name).filter fun n =>
    !(g.any fun e => e.upstream.contains (Src.unit n))

/-- A unit is ready once every non-sentinel upstream is already
ordered. -/
def ready (done : List String) (e : GraphEntry) : Bool :=
  e.upstream.all fun s =>
    match s with
    | .input => true
    | .unit n => done.contains n

/-- Fueled topological ordering: repeatedly append some ready pending
unit; when none is ready while units remain, the graph is cyclic. -/
def topoAux : Nat → List String → List GraphEntry → Option (List String)
  | 0, done, pending => if pending.isEmpty then some done else none
  | fuel + 1, done, pending =>
    if pending.isEmpty then some done
    else
      match pending.find? (ready done) with
      | none => none
      | some e =>
        topoAux fuel (done ++ [e.name])
          (pending.filter fun x => x.name != e.name)

/-- The cached topological order of the graph, or `none` on a cycle
(spec §4.2: "a topological order is computed once and cached"). -/
def topoSort (g : List GraphEntry) : Option (List String) :=
  topoAux g.length [] g

/-- A validated pipeline: the units, the cached topological order and
the designated terminal (spec §3, §4.2). -/
structure Pipeline where
  entries : List GraphEntry
  order : List String
  terminal : String

/-- Modelled from the spec (§4.2, §7): construction validates name
uniqueness, upstream resolution, acyclicity and a unique terminal, and
fails with a `ConfigurationError` otherwise; on success the topological
order is computed once and cached. -/
def build (g : List GraphEntry) : Except ConfigurationError Pipeline :=
  if (g.map GraphEntry.name).Nodup then
    if refsOkB g then
      match topoSort g with
      | none => .error .cycle
      | some ord =>
        match terminals g with
        | [t] => .ok ⟨g, ord, t⟩
        | _ => .error .badTerminal
    else .error .danglingReference
  else .error .duplicateName

/-- Resolve one upstream source against the external input and the
per-call cache of unit outputs. -/
def resolve (input : Val) (cache : List (String × Val)) : Src → Option Val
  | .input => some input
  | .unit n => cache.lookup n

/-- Modelled from the spec (§4.2): a unit whose declared upstream is the
sentinel receives the external input; one upstream is passed directly;
multiple upstreams are passed as an ordered collection in declared
order. -/
def gather (input : Val) (cache : List (String × Val)) :
    List Src → Option Val
  | [s] => resolve input cache s
  | ss => (ss.mapM (resolve input cache)).map Val.tuple

/-- Runtime error of a `process` call: a propagated unit `ShapeError`,
or an unresolvable unit output (impossible on validated pipelines). -/
inductive PipelineError where
  | shape : ShapeError → PipelineError
  | missing : String → PipelineError

/-- Replace the state of the unit named `n`. -/
def updState (n : String) (s' : Val) (es : List GraphEntry) :
    List GraphEntry :=
  es.map fun x =>
    if x.name == n then { x with block := { x.block with state := s' } }
    else x

/-- Modelled from the spec (§4.2): evaluate units strictly in the cached
topological order, caching each output for the duration of the call and
threading each unit's internal state. -/
def runOrder (input : Val) :
    List String → List GraphEntry → List (String × Val) →
    Except PipelineError (List GraphEntry × List (String × Val))
  | [], entries, cache => .ok (entries, cache)
  | n :: rest, entries, cache =>
    match entries.find? (fun e => e.name == n) with
    | none => .error (.missing n)
    | some e =>
      match gather input cache e.upstream with
      | none => .error (.missing n)
      | some vin =>
        match e.block.step e.block.state vin with
        | .error se => .error (.shape se)
        | .ok (s', out) =>
          runOrder input rest (updState n s' entries) (cache ++ [(n, out)])

/-- Modelled from the spec (§4.2): one per-chunk call.  The per-call
cache starts empty (outputs are not retained across calls); the terminal
unit's output is returned together with the pipeline carrying the
updated unit states. -/
def Pipeline.process (p : Pipeline) (input : Val) :
    Except PipelineError (Pipeline × Val) :=
  match runOrder input p.order p.entries [] with
  | .error err => .error err
  | .ok (es, cache) =>
    match cache.lookup p.terminal with
    | none => .error (.missing p.terminal)
    | some out => .ok ({ p with entries := es }, out)

/-- Modelled from the spec (§4.2): `reset()` on the Pipeline resets
every unit and clears no other state. -/
def Pipeline.reset (p : Pipeline) : Pipeline :=
  { p with entries := p.entries.map fun e => { e with block := e.block.reset } }

/-- The directed dependency edge: `a` is an upstream of the unit named
`b` (spec glossary: edges represent "consumes output of"). -/
def Edge (g : List GraphEntry) (a b : String) : Prop :=
  ∃ e ∈ g, e.name = b ∧ Src.unit a ∈ e.upstream

/-- A dependency cycle: a nonempty chain of edges from a name back to
itself. -/
def HasCycle (g : List GraphEntry) : Prop :=
  ∃ a, Relation.TransGen (Edge g) a a

/-! ### Consumer tasks (from src/axopy/task/common.py)

The tasks hold an optional preprocessing pipeline; widget plotting,
the daqstream and `finish()` are external collaborators, modelled by
recording the plotted values and by run/finished flags. -/

/-- Modelled from the spec: `util.key_return` (axopy/util.py is not
under src/); only its identity matters to `key_press`. -/
def key_return : String := "return"

/-- `Oscilloscope` (src/axopy/task/common.py): optional pipeline, the
values handed to `self.scope.plot` in order, and the daqstream/finished
status. -/
structure Oscilloscope where
  pipeline : Option Pipeline
  plotted : List Val
  daqRunning : Bool
  finished : Bool

/-- `Oscilloscope.update` (src/axopy/task/common.py lines 43-46): run
the data through the pipeline when one is configured, then plot it; a
pipeline error propagates and nothing is plotted. -/
def Oscilloscope.update (t : Oscilloscope) (data : Val) :
    Except PipelineError Oscilloscope :=
  match t.pipeline with
  | none => .ok { t with plotted := t.plotted ++ [data] }
  | some pl =>
    match pl.process data with
    | .error err => .error err
    | .ok (pl', out) =>
      .ok { t with pipeline := some pl', plotted := t.plotted ++ [out] }

/-- `Oscilloscope.key_press` (src/axopy/task/common.py lines 48-51): on
the return key, stop the daqstream and finish the task; otherwise do
nothing. -/
def Oscilloscope.key_press (t : Oscilloscope) (key : String) : Oscilloscope :=
  if key = key_return then { t with daqRunning := false, finished := true }
  else t

/-- `BarPlotter` (src/axopy/task/common.py): same consumer state as
`Oscilloscope`, plotting through `self.plotter.plot`. -/
structure BarPlotter where
  pipeline : Option Pipeline
  plotted : List Val
  daqRunning : Bool
  finished : Bool

/-- `BarPlotter.update` (src/axopy/task/common.py lines 93-96). -/
def BarPlotter.update (t : BarPlotter) (data : Val) :
    Except PipelineError BarPlotter :=
  match t.pipeline with
  | none => .ok { t with plotted := t.plotted ++ [data] }
  | some pl =>
    match pl.process data with
    | .error err => .error err
    | .ok (pl', out) =>
      .ok { t with pipeline := some pl', plotted := t.plotted ++ [out] }

/-- `BarPlotter.key_press` (src/axopy/task/common.py lines 98-101). -/
def BarPlotter.key_press (t : BarPlotter) (key : String) : BarPlotter :=
  if key = key_return then { t with daqRunning := false, finished := true }
  else t

/-- `PolarPlotter` (src/axopy/task/common.py): same consumer state. -/
structure PolarPlotter where
  pipeline : Option Pipeline
  plotted : List Val
  daqRunning : Bool
  finished : Bool

/-- `PolarPlotter.update` (src/axopy/task/common.py lines 133-136). -/
def PolarPlotter.update (t : PolarPlotter) (data : Val) :
    Except PipelineError PolarPlotter :=
  match t.pipeline with
  | none => .ok { t with plotted := t.plotted ++ [data] }
  | some pl =>
    match pl.process data with
    | .error err => .error err
    | .ok (pl', out) =>
      .ok { t with pipeline := some pl', plotted := t.plotted ++ [out] }

/-- `PolarPlotter.key_press` (src/axopy/task/common.py lines 138-141). -/
def PolarPlotter.key_press (t : PolarPlotter) (key : String) : PolarPlotter :=
  if key = key_return then { t with daqRunning := false, finished := true }
  else t

/-- Modelled from the spec (§4.5): the Identity (Passthrough) unit
returns its input unchanged and is stateless. -/
def Passthrough : Block :=
  ⟨Val.tuple [], Val.tuple [], fun s v => .ok (s, v)⟩

/-- Modelled from the spec (§4.1, §4.5): a unit that requires a 2-D
array with a fixed channel count, failing with a `ShapeError` on a rank
or channel-count mismatch and passing the input through otherwise. -/
def channelCheck (c : Nat) : Block :=
  ⟨Val.tuple [], Val.tuple [], fun s v =>
    match v with
    | Val.arr cols =>
      match cols.find? (fun col => col.length != c) with
      | none => .ok (s, Val.arr cols)
      | some col => .error (.badChannels c col.length)
    | Val.tuple _ => .error .badRank⟩

/-! ### Windower lemmas -/

namespace Windower

theorem process_fst_buffer (w : Windower) (c : List Sample) :
    (w.process c).1.buffer = (w.process c).2 := rfl

theorem process_fst_window_length (w : Windower) (c : List Sample) :
    (w.process c).1.window_length = w.window_length := rfl

theorem process_fst_channels (w : Windower) (c : List Sample) :
    (w.process c).1.channels = w.channels := rfl

/-- Uniform description of one step: the returned window is always the
final `window_length` samples of `buffer ++ chunk`. -/
theorem process_snd_eq (w : Windower) (c : List Sample)
    (h : w.buffer.length = w.window_length) :
    (w.process c).2 = (w.buffer ++ c).drop c.length := by
  unfold process
  by_cases hl : w.window_length ≤ c.length
  · simp only [hl, if_true]
    have : c.length = w.buffer.length + (c.length - w.window_length) := by omega
    rw [this, List.drop_append]
    congr 1
    omega
  · simp only [hl, if_false]
    rw [List.drop_append_of_le_length (by omega)]

theorem process_snd_length (w : Windower) (c : List Sample)
    (h : w.buffer.length = w.window_length) :
    (w.process c).2.length = w.window_length := by
  rw [process_snd_eq w c h, List.length_drop, List.length_append]
  omega

theorem processAll_fst_window_length (w : Windower) (cs : List (List Sample)) :
    (w.processAll cs).1.window_length = w.window_length := by
  induction cs generalizing w with
  | nil => rfl
  | cons c cs ih => simp only [processAll, ih, process_fst_window_length]

theorem processAll_fst_channels (w : Windower) (cs : List (List Sample)) :
    (w.processAll cs).1.channels = w.channels := by
  induction cs generalizing w with
  | nil => rfl
  | cons c cs ih => simp only [processAll, ih, process_fst_channels]

/-- After feeding a chunk sequence, the buffer is the final
`window_length` samples of the original buffer followed by everything
fed. -/
theorem processAll_fst_buffer (w : Windower) (cs : List (List Sample))
    (h : w.buffer.length = w.window_length) :
    (w.processAll cs).1.buffer =
      (w.buffer ++ cs.flatten).drop cs.flatten.length := by
  induction cs generalizing w with
  | nil => simp [processAll]
  | cons c cs ih =>
    simp only [processAll]
    have h1 : (w.process c).1.buffer.length = (w.process c).1.window_length := by
      rw [process_fst_buffer, process_fst_window_length, process_snd_length w c h]
    rw [ih _ h1, process_fst_buffer, process_snd_eq w c h]
    have hc : c.length ≤ (w.buffer ++ c).length := by
      rw [List.length_append]; omega
    have e1 : (w.buffer ++ c).drop c.length ++ cs.flatten =
        ((w.buffer ++ c) ++ cs.flatten).drop c.length :=
      (List.drop_append_of_le_length hc).symm
    rw [e1, List.drop_drop, List.flatten_cons, ← List.append_assoc,
      List.length_append]

theorem processAll_fst_buffer_length (w : Windower) (cs : List (List Sample))
    (h : w.buffer.length = w.window_length) :
    (w.processAll cs).1.buffer.length = w.window_length := by
  rw [processAll_fst_buffer w cs h, List.length_drop, List.length_append]
  omega

/-- `lastN` of a suffix agrees with `lastN` of the whole list. -/
theorem lastN_drop (xs : List α) (j k : Nat) (hk : k + j ≤ xs.length) :
    lastN k (xs.drop j) = lastN k xs := by
  unfold lastN
  rw [List.length_drop, List.drop_drop]
  congr 1
  omega

/-- `lastN` ignores a prefix when the suffix is long enough. -/
theorem lastN_append (xs ys : List α) (k : Nat) (hk : k ≤ ys.length) :
    lastN k (xs ++ ys) = lastN k ys := by
  unfold lastN
  rw [List.length_append]
  have : xs.length + ys.length - k = xs.length + (ys.length - k) := by omega
  rw [this, List.drop_append]

end Windower

/-! ### Claim theorems: Windower -/

/-- C1: for a Windower whose buffer holds `window_length` samples, if the
chunk has at least `window_length` samples the returned window is exactly
the last `window_length` samples of the chunk and the buffered content is
fully discarded (the result is independent of the previous buffer); if
the chunk is shorter, the buffer is shifted left by the chunk length
(dropping the oldest samples), the chunk is appended, and the full buffer
is returned; and starting from a freshly constructed Windower, as long as
fewer than `window_length` samples have been fed, the unfilled leading
portion of the returned buffer is zero-valued (and `process` is total, so
no error is raised). -/
theorem C1_windower_process (w w' : Windower) (c : List Sample)
    (channels L : Nat) (cs : List (List Sample))
    (hw' : w'.window_length = w.window_length) :
    (w.window_length ≤ c.length →
      (w.process c).2 = lastN w.window_length c ∧
      (w'.process c).2 = (w.process c).2) ∧
    (c.length < w.window_length →
      (w.process c).2 = w.buffer.drop c.length ++ c ∧
      (w.process c).2 = (w.process c).1.buffer) ∧
    (cs.flatten.length < L →
      ((Windower.new channels L).processAll cs).1.buffer.take
          (L - cs.flatten.length) =
        List.replicate (L - cs.flatten.length) (zeroSample channels)) := by
  refine ⟨fun h => ?_, fun h => ?_, fun h => ?_⟩
  · constructor
    · unfold Windower.process lastN
      simp [h]
    · unfold Windower.process
      simp [h, hw' ▸ h, hw']
  · constructor
    · unfold Windower.process
      simp [Nat.not_le.mpr h]
    · rw [Windower.process_fst_buffer]
  · have hlen : (Windower.new channels L).buffer.length =
        (Windower.new channels L).window_length := by
      simp [Windower.new]
    rw [Windower.processAll_fst_buffer _ cs hlen]
    show ((List.replicate L (zeroSample channels) ++ cs.flatten).drop
        cs.flatten.length).take (L - cs.flatten.length) = _
    rw [List.drop_append_of_le_length
        (by simp only [List.length_replicate]; omega),
      List.drop_replicate]
    exact List.take_left' (by simp only [List.length_replicate])

/-- C1 witness: the three hypotheses hold at a concrete instance. -/
theorem C1_windower_process_witness :
    ((Windower.new 1 2).window_length ≤ ([[5], [6], [7]] : List Sample).length →
      ((Windower.new 1 2).process [[5], [6], [7]]).2 =
        lastN (Windower.new 1 2).window_length [[5], [6], [7]] ∧
      ((Windower.new 1 2).process [[5], [6], [7]]).2 =
        ((Windower.new 1 2).process [[5], [6], [7]]).2) ∧
    (([[5], [6], [7]] : List Sample).length < (Windower.new 1 2).window_length →
      ((Windower.new 1 2).process [[5], [6], [7]]).2 =
        (Windower.new 1 2).buffer.drop 3 ++ [[5], [6], [7]] ∧
      ((Windower.new 1 2).process [[5], [6], [7]]).2 =
        ((Windower.new 1 2).process [[5], [6], [7]]).1.buffer) ∧
    (([[[9]], [[8]]] : List (List Sample)).flatten.length < 5 →
      ((Windower.new 1 5).processAll [[[9]], [[8]]]).1.buffer.take
          (5 - ([[[9]], [[8]]] : List (List Sample)).flatten.length) =
        List.replicate (5 - ([[[9]], [[8]]] : List (List Sample)).flatten.length)
          (zeroSample 1)) :=
  C1_windower_process (Windower.new 1 2) (Windower.new 1 2) [[5], [6], [7]]
    1 5 [[[9]], [[8]]] rfl

/-- C3: feeding any chunk sequence with cumulative sample count at least
`window_length` to a well-formed Windower leaves a buffer of shape
(channels, window_length) whose last `k` samples are the last `k`
samples fed, for every `k ≤ window_length`; the window length never
changes. -/
theorem C3_windower_rolling_invariant (w : Windower) (cs : List (List Sample))
    (hbuf : w.buffer.length = w.window_length)
    (hch : ∀ col ∈ w.buffer, col.length = w.channels)
    (hcs : ∀ c ∈ cs, ∀ col ∈ c, col.length = w.channels)
    (hcum : w.window_length ≤ cs.flatten.length) :
    (w.processAll cs).1.window_length = w.window_length ∧
    (w.processAll cs).1.buffer.length = w.window_length ∧
    (∀ col ∈ (w.processAll cs).1.buffer, col.length = w.channels) ∧
    ∀ k ≤ w.window_length,
      lastN k (w.processAll cs).1.buffer = lastN k cs.flatten := by
  refine ⟨Windower.processAll_fst_window_length w cs,
    Windower.processAll_fst_buffer_length w cs hbuf, ?_, ?_⟩
  · intro col hcol
    rw [Windower.processAll_fst_buffer w cs hbuf] at hcol
    rcases List.mem_append.mp (List.mem_of_mem_drop hcol) with hb | hf
    · exact hch col hb
    · rcases List.mem_flatten.mp hf with ⟨c, hc, hcc⟩
      exact hcs c hc col hcc
  · intro k hk
    rw [Windower.processAll_fst_buffer w cs hbuf,
      Windower.lastN_drop _ _ _ (by rw [List.length_append]; omega),
      Windower.lastN_append _ _ _ (by omega)]

/-- C3 witness: concrete two-channel Windower fed three samples. -/
theorem C3_windower_rolling_invariant_witness :
    ((Windower.new 2 2).processAll [[[1, 2], [3, 4]], [[5, 6]]]).1.window_length
        = (Windower.new 2 2).window_length ∧
    ((Windower.new 2 2).processAll [[[1, 2], [3, 4]], [[5, 6]]]).1.buffer.length
        = (Windower.new 2 2).window_length ∧
    (∀ col ∈ ((Windower.new 2 2).processAll
        [[[1, 2], [3, 4]], [[5, 6]]]).1.buffer,
      col.length = (Windower.new 2 2).channels) ∧
    ∀ k ≤ (Windower.new 2 2).window_length,
      lastN k ((Windower.new 2 2).processAll [[[1, 2], [3, 4]], [[5, 6]]]).1.buffer
        = lastN k ([[[1, 2], [3, 4]], [[5, 6]]] : List (List Sample)).flatten :=
  C3_windower_rolling_invariant (Windower.new 2 2) [[[1, 2], [3, 4]], [[5, 6]]]
    (by decide) (by decide) (by decide) (by decide)

/-- `reset` produces exactly the state of a newly constructed Windower
with the same channel count and window length. -/
theorem reset_eq_new (w : Windower) :
    w.reset = Windower.new w.channels w.window_length := rfl

/-- C5: `reset()` zero-fills the buffer and clears the fill counter, and
processing any chunk sequence after `reset()` is indistinguishable from
processing it on a newly constructed Windower with the same
parameters. -/
theorem C5_reset_equiv_reconstruction (w : Windower) (cs : List (List Sample)) :
    w.reset.buffer = List.replicate w.window_length (zeroSample w.channels) ∧
    w.reset.filled = 0 ∧
    w.reset.processAll cs =
      (Windower.new w.channels w.window_length).processAll cs :=
  ⟨rfl, rfl, by rw [reset_eq_new]⟩

/-! ### Claim theorems: Segmenter -/

/-- Membership characterization of `segment_indices`. -/
theorem mem_segment_indices_iff (N L S : Nat) (hS : 0 < S) (x : Nat) :
    x ∈ sources.segment_indices N L S ↔ ∃ i, x = i * S ∧ x + L ≤ N := by
  unfold sources.segment_indices
  by_cases hN : L ≤ N
  · simp only [hN, if_true, List.mem_map, List.mem_range]
    constructor
    · rintro ⟨i, hi, rfl⟩
      refine ⟨i, rfl, ?_⟩
      have : i ≤ (N - L) / S := by omega
      have := (Nat.le_div_iff_mul_le hS).mp this
      omega
    · rintro ⟨i, rfl, hfit⟩
      refine ⟨i, ?_, rfl⟩
      have : i * S ≤ N - L := by omega
      have := (Nat.le_div_iff_mul_le hS).mpr this
      omega
  · simp only [hN, if_false, List.not_mem_nil, false_iff]
    rintro ⟨i, rfl, hfit⟩
    omega

/-- C2: `segment_indices N L S` contains exactly the multiples of `S`
whose segment of length `L` fits inside `N` samples (the trailing
remainder is dropped, never padded), listed in strictly increasing
order; in particular `segment_indices 18 4 4 = [0, 4, 8, 12]`. -/
theorem C2_segment_indices_spec (N L S : Nat) (hL : 0 < L) (hS : 0 < S) :
    (∀ x, x ∈ sources.segment_indices N L S ↔ ∃ i, x = i * S ∧ x + L ≤ N) ∧
    List.Pairwise (· < ·) (sources.segment_indices N L S) ∧
    sources.segment_indices 18 4 4 = [0, 4, 8, 12] := by
  refine ⟨mem_segment_indices_iff N L S hS, ?_, by decide⟩
  unfold sources.segment_indices
  by_cases hN : L ≤ N
  · simp only [hN, if_true]
    refine List.pairwise_map.mpr ?_
    exact (List.pairwise_lt_range _).imp fun h =>
      Nat.mul_lt_mul_of_lt_of_le h (le_refl S) hS
  · simp [hN]

/-- C2 witness: the concrete example from the spec. -/
theorem C2_segment_indices_spec_witness :
    sources.segment_indices 18 4 4 = [0, 4, 8, 12] :=
  (C2_segment_indices_spec 18 4 4 (by decide) (by decide)).2.2

/-- C4: `segment data L S` is the list of slices
`data[start : start+L]` along the sample axis, one per offset of
`segment_indices`, in the same order; each slice has length exactly `L`
and its `j`-th sample is sample `start + j` of `data` (the functions are
pure, so determinism and absence of side effects are structural). -/
theorem C4_segment_spec (data : List Sample) (L S : Nat)
    (hL : 0 < L) (hS : 0 < S) :
    sources.segment data L S =
      (sources.segment_indices data.length L S).map
        (fun s => (data.drop s).take L) ∧
    ∀ s ∈ sources.segment_indices data.length L S,
      ((data.drop s).take L).length = L ∧
      ∀ j < L, ((data.drop s).take L)[j]? = data[s + j]? := by
  refine ⟨rfl, fun s hs => ?_⟩
  have hfit : s + L ≤ data.length := by
    rcases (mem_segment_indices_iff data.length L S hS s).mp hs with
      ⟨i, _, hfit⟩
    exact hfit
  constructor
  · rw [List.length_take, List.length_drop]
    omega
  · intro j hj
    rw [List.getElem?_take, if_pos hj, List.getElem?_drop]

/-- C4 witness: a length-5 recording sliced with L = 2, S = 2. -/
theorem C4_segment_spec_witness :
    sources.segment [[1], [2], [3], [4], [5]] 2 2 =
      (sources.segment_indices
          ([[1], [2], [3], [4], [5]] : List Sample).length 2 2).map
        (fun s => (([[1], [2], [3], [4], [5]] : List Sample).drop s).take 2) ∧
    ∀ s ∈ sources.segment_indices
        ([[1], [2], [3], [4], [5]] : List Sample).length 2 2,
      ((([[1], [2], [3], [4], [5]] : List Sample).drop s).take 2).length = 2 ∧
      ∀ j < 2, ((([[1], [2], [3], [4], [5]] : List Sample).drop s).take 2)[j]? =
        ([[1], [2], [3], [4], [5]] : List Sample)[s + j]? :=
  C4_segment_spec [[1], [2], [3], [4], [5]] 2 2 (by decide) (by decide)


example :
    (Windower.new 1 3).process [[5], [6]] =
      (⟨3, 1, [[0], [5], [6]], 2⟩, [[0], [5], [6]]) := by decide

example :
    (Windower.new 1 2).process [[5], [6], [7]] =
      (⟨2, 1, [[6], [7]], 2⟩, [[6], [7]]) := by decide

/-! ### Pipeline graph lemmas: topological ordering -/

/-- With pairwise-distinct names, a name determines its entry. -/
theorem name_inj {g : List GraphEntry}
    (hnd : (g.map GraphEntry.name).Nodup) :
    ∀ a ∈ g, ∀ b ∈ g, a.name = b.name → a = b := by
  induction g with
  | nil => intro a ha; cases ha
  | cons x xs ih =>
    simp only [List.map_cons, List.nodup_cons] at hnd
    intro a ha b hb h
    rcases List.mem_cons.mp ha with ha1 | ha2
    · rcases List.mem_cons.mp hb with hb1 | hb2
      · rw [ha1, hb1]
      · exact absurd (by rw [← ha1, h]
                         exact List.mem_map_of_mem GraphEntry.name hb2)
          hnd.1
    · rcases List.mem_cons.mp hb with hb1 | hb2
      · exact absurd (by rw [← hb1, ← h]
                         exact List.mem_map_of_mem GraphEntry.name ha2)
          hnd.1
      · exact ih hnd.2 a ha2 b hb2 h

/-- An element of `l.take k` first occurs before position `k`. -/
theorem indexOf_lt_of_mem_take {l : List String} {a : String} {k : Nat}
    (h : a ∈ l.take k) : l.indexOf a < k := by
  induction l generalizing k with
  | nil => simp at h
  | cons x xs ih =>
    cases k with
    | zero => simp at h
    | succ k =>
      rw [List.take_succ_cons] at h
      by_cases hax : a = x
      · subst hax
        simp [List.indexOf_cons_self]
      · rcases List.mem_cons.mp h with rfl | h
        · exact absurd rfl hax
        · rw [List.indexOf_cons_ne _ (Ne.symm hax)]
          exact Nat.succ_lt_succ (ih h)

/-- Soundness and completeness of the fueled topological ordering: a
successful run lists every unit name exactly once, with each unit's
non-sentinel upstreams strictly earlier. -/
theorem topoAux_spec (g : List GraphEntry)
    (hnd : (g.map GraphEntry.name).Nodup) :
    ∀ fuel done pending ord,
    done.Nodup →
    (∀ x ∈ pending, x ∈ g) →
    (∀ x ∈ pending, x.name ∉ done) →
    (∀ e ∈ g, e.name ∉ done → e ∈ pending) →
    (∀ e ∈ g, ∀ k, (hk : k < done.length) → done.get ⟨k, hk⟩ = e.name →
      ∀ n, Src.unit n ∈ e.upstream → n ∈ done.take k) →
    topoAux fuel done pending = some ord →
    ord.Nodup ∧ (∀ e ∈ g, e.name ∈ ord) ∧
    (∀ e ∈ g, ∀ k, (hk : k < ord.length) → ord.get ⟨k, hk⟩ = e.name →
      ∀ n, Src.unit n ∈ e.upstream → n ∈ ord.take k) := by
  intro fuel
  induction fuel with
  | zero =>
    intro done pending ord h1 h2 h3 h4 h5 heq
    unfold topoAux at heq
    by_cases hp : pending.isEmpty
    · rw [if_pos hp] at heq
      obtain rfl : done = ord := Option.some.inj heq
      have hpe : pending = [] := List.isEmpty_iff.mp hp
      refine ⟨h1, fun e he => ?_, h5⟩
      by_contra hne
      have := h4 e he hne
      rw [hpe] at this
      cases this
    · rw [if_neg hp] at heq
      cases heq
  | succ fuel ih =>
    intro done pending ord h1 h2 h3 h4 h5 heq
    unfold topoAux at heq
    by_cases hp : pending.isEmpty
    · rw [if_pos hp] at heq
      obtain rfl : done = ord := Option.some.inj heq
      have hpe : pending = [] := List.isEmpty_iff.mp hp
      refine ⟨h1, fun e he => ?_, h5⟩
      by_contra hne
      have := h4 e he hne
      rw [hpe] at this
      cases this
    · rw [if_neg hp] at heq
      cases hfind : pending.find? (ready done) with
      | none => rw [hfind] at heq; cases heq
      | some e =>
        rw [hfind] at heq
        have hep : e ∈ pending := List.mem_of_find?_eq_some hfind
        have heg : e ∈ g := h2 e hep
        have hre : ready done e = true := List.find?_some hfind
        unfold ready at hre
        have hnotdone : e.name ∉ done := h3 e hep
        refine ih (done ++ [e.name])
          (pending.filter fun x => x.name != e.name) ord ?_ ?_ ?_ ?_ ?_ heq
        · rw [List.nodup_append]
          refine ⟨h1, List.nodup_singleton _, fun a ha hb => ?_⟩
          simp only [List.mem_singleton] at hb
          subst hb
          exact hnotdone ha
        · exact fun x hx => h2 x (List.mem_of_mem_filter hx)
        · intro x hx hmem
          rcases List.mem_filter.mp hx with ⟨hxp, hxne⟩
          rcases List.mem_append.mp hmem with hd | hs
          · exact h3 x hxp hd
          · simp only [List.mem_singleton] at hs
            exact bne_iff_ne.mp hxne hs
        · intro f hf hfn
          have hme : e.name ∈ done ++ [e.name] :=
            List.mem_append_right _ (List.mem_singleton_self _)
          have hne : f.name ≠ e.name := fun hh => hfn (hh ▸ hme)
          have hnd2 : f.name ∉ done := fun hh =>
            hfn (List.mem_append_left _ hh)
          exact List.mem_filter.mpr ⟨h4 f hf hnd2, bne_iff_ne.mpr hne⟩
        · intro f hf k hk hget n hn
          by_cases hkd : k < done.length
          · have hget' : done.get ⟨k, hkd⟩ = f.name := by
              rw [← hget, List.get_eq_getElem, List.get_eq_getElem,
                List.getElem_append_left]
            have := h5 f hf k hkd hget' n hn
            rw [List.take_append_of_le_length (le_of_lt hkd)]
            exact this
          · have hkeq : k = done.length := by
              have : k < done.length + 1 := by simpa using hk
              omega
            subst hkeq
            have hgete : (done ++ [e.name]).get ⟨done.length, hk⟩ = e.name := by
              simp
            have hfe : f.name = e.name := by rw [← hget, hgete]
            obtain rfl : f = e := name_inj hnd f hf e heg hfe
            rw [List.take_left]
            have := List.all_eq_true.mp hre (Src.unit n) hn
            simpa using this

/-- Complete correctness of `topoSort` on a duplicate-free graph. -/
theorem topoSort_spec (g : List GraphEntry)
    (hnd : (g.map GraphEntry.name).Nodup) (ord : List String)
    (h : topoSort g = some ord) :
    ord.Nodup ∧ (∀ e ∈ g, e.name ∈ ord) ∧
    (∀ e ∈ g, ∀ k, (hk : k < ord.length) → ord.get ⟨k, hk⟩ = e.name →
      ∀ n, Src.unit n ∈ e.upstream → n ∈ ord.take k) := by
  refine topoAux_spec g hnd g.length [] g ord List.nodup_nil
    (fun x hx => hx) (fun x _ hx => (List.not_mem_nil _ hx).elim)
    (fun e he _ => he) (fun f _ k hk => absurd hk (by simp)) h

/-- A dependency edge is strictly increasing along a successful
topological order. -/
theorem topo_edge_lt (g : List GraphEntry)
    (hnd : (g.map GraphEntry.name).Nodup) (ord : List String)
    (hts : topoSort g = some ord) :
    ∀ a b, Edge g a b → ord.indexOf a < ord.indexOf b := by
  obtain ⟨-, hcomp, hsort⟩ := topoSort_spec g hnd ord hts
  rintro a b ⟨e, heg, rfl, hup⟩
  have hb : e.name ∈ ord := hcomp e heg
  have hk : ord.indexOf e.name < ord.length := List.indexOf_lt_length.mpr hb
  have hget : ord.get ⟨ord.indexOf e.name, hk⟩ = e.name := List.indexOf_get hk
  exact indexOf_lt_of_mem_take
    (hsort e heg (ord.indexOf e.name) hk hget a hup)

/-- A graph on which `topoSort` succeeds has no dependency cycle. -/
theorem topoSort_some_no_cycle (g : List GraphEntry)
    (hnd : (g.map GraphEntry.name).Nodup) (ord : List String)
    (hts : topoSort g = some ord) : ¬ HasCycle g := by
  rintro ⟨a, hc⟩
  have mono : ∀ x y, Relation.TransGen (Edge g) x y →
      ord.indexOf x < ord.indexOf y := by
    intro x y h
    induction h with
    | single h => exact topo_edge_lt g hnd ord hts _ _ h
    | tail _ h ih => exact lt_trans ih (topo_edge_lt g hnd ord hts _ _ h)
  exact lt_irrefl _ (mono a a hc)

/-- On a cyclic duplicate-free graph, `topoSort` fails. -/
theorem hasCycle_topoSort_none (g : List GraphEntry)
    (hnd : (g.map GraphEntry.name).Nodup) (hc : HasCycle g) :
    topoSort g = none := by
  cases hts : topoSort g with
  | none => rfl
  | some ord => exact absurd hc (topoSort_some_no_cycle g hnd ord hts)

/-- A dangling upstream reference falsifies the reference check. -/
theorem refsOkB_eq_false_of_dangling {g : List GraphEntry}
    (h : ∃ e ∈ g, ∃ n, Src.unit n ∈ e.upstream ∧
      n ∉ g.map GraphEntry.name) : refsOkB g = false := by
  rcases h with ⟨e, heg, n, hn, hnot⟩
  cases hb : refsOkB g with
  | false => rfl
  | true =>
    exfalso
    unfold refsOkB at hb
    have h2 := List.all_eq_true.mp hb e heg
    have h3 := List.all_eq_true.mp h2 (Src.unit n) hn
    exact hnot (by simpa using h3)

/-- C6: a graph with a duplicate unit name, a dangling upstream
reference, a dependency cycle, or no uniquely determined terminal fails
`build` with a `ConfigurationError`; no pipeline value is produced, so
`process` can never run on such a graph. -/
theorem C6_build_validation (g : List GraphEntry)
    (h : ¬ (g.map GraphEntry.name).Nodup ∨
      (∃ e ∈ g, ∃ n, Src.unit n ∈ e.upstream ∧ n ∉ g.map GraphEntry.name) ∨
      HasCycle g ∨
      ¬ ∃ t, terminals g = [t]) :
    (∃ err, build g = Except.error err) ∧
    ∀ p, build g ≠ Except.ok p := by
  have main : ∃ err, build g = Except.error err := by
    by_cases hnd : (g.map GraphEntry.name).Nodup
    · rcases h with hdup | hdang | hcyc | hterm
      · exact absurd hnd hdup
      · refine ⟨.danglingReference, ?_⟩
        unfold build
        rw [if_pos hnd, refsOkB_eq_false_of_dangling hdang]
        rfl
      · cases hr : refsOkB g with
        | false =>
          refine ⟨.danglingReference, ?_⟩
          unfold build
          rw [if_pos hnd, hr]
          rfl
        | true =>
          refine ⟨.cycle, ?_⟩
          unfold build
          rw [if_pos hnd, hr, hasCycle_topoSort_none g hnd hcyc]
          rfl
      · cases hr : refsOkB g with
        | false =>
          refine ⟨.danglingReference, ?_⟩
          unfold build
          rw [if_pos hnd, hr]
          rfl
        | true =>
          cases hts : topoSort g with
          | none =>
            refine ⟨.cycle, ?_⟩
            unfold build
            rw [if_pos hnd, hr, hts]
            rfl
          | some ord =>
            refine ⟨.badTerminal, ?_⟩
            unfold build
            rw [if_pos hnd, hr, hts]
            cases htl : terminals g with
            | nil => rfl
            | cons t ts =>
              cases ts with
              | nil => exact absurd ⟨t, htl⟩ hterm
              | cons t2 ts2 => rfl
    · refine ⟨.duplicateName, ?_⟩
      unfold build
      rw [if_neg hnd]
  refine ⟨main, fun p hp => ?_⟩
  rcases main with ⟨err, herr⟩
  rw [herr] at hp
  cases hp

/-- The two-unit cyclic graph from the spec: A depends on B and B
depends on A. -/
def cycleGraph : List GraphEntry :=
  [⟨"a", Passthrough, [Src.unit "b"]⟩, ⟨"b", Passthrough, [Src.unit "a"]⟩]

/-- `cycleGraph` really has a dependency cycle. -/
theorem cycleGraph_hasCycle : HasCycle cycleGraph := by
  have e1 : Edge cycleGraph "a" "b" :=
    ⟨⟨"b", Passthrough, [Src.unit "a"]⟩,
      List.mem_cons_of_mem _ (List.mem_singleton_self _), rfl,
      List.mem_singleton_self _⟩
  have e2 : Edge cycleGraph "b" "a" :=
    ⟨⟨"a", Passthrough, [Src.unit "b"]⟩,
      List.mem_cons_self _ _, rfl, List.mem_singleton_self _⟩
  exact ⟨"a", Relation.TransGen.tail (Relation.TransGen.single e1) e2⟩

/-- C6 witness: constructing the cyclic A-B pipeline fails and can never
execute. -/
theorem C6_build_validation_witness :
    (∃ err, build cycleGraph = Except.error err) ∧
    ∀ p, build cycleGraph ≠ Except.ok p :=
  C6_build_validation cycleGraph
    (Or.inr (Or.inr (Or.inl cycleGraph_hasCycle)))

/-! ### Pipeline execution lemmas -/

theorem lookup_append_left {cache d : List (String × Val)} {k : String}
    {v : Val} (h : cache.lookup k = some v) :
    (cache ++ d).lookup k = some v := by
  induction cache with
  | nil => simp [List.lookup] at h
  | cons a cache ih =>
    rw [List.cons_append]
    cases a with
    | mk a1 a2 =>
      simp only [List.lookup] at h ⊢
      cases hk : k == a1 with
      | true => rw [hk] at h; simpa using h
      | false => rw [hk] at h; simp only []; exact ih h

theorem lookup_append_right {cache d : List (String × Val)} {k : String}
    (h : cache.lookup k = none) :
    (cache ++ d).lookup k = d.lookup k := by
  induction cache with
  | nil => rfl
  | cons a cache ih =>
    rw [List.cons_append]
    cases a with
    | mk a1 a2 =>
      simp only [List.lookup] at h ⊢
      cases hk : k == a1 with
      | true => rw [hk] at h; simp at h
      | false => rw [hk] at h; simp only []; exact ih h

theorem lookup_eq_none_of_not_mem {cache : List (String × Val)} {k : String}
    (h : k ∉ cache.map Prod.fst) : cache.lookup k = none := by
  induction cache with
  | nil => rfl
  | cons a cache ih =>
    cases a with
    | mk a1 a2 =>
      simp only [List.map_cons, List.mem_cons] at h
      push_neg at h
      simp only [List.lookup]
      cases hk : k == a1 with
      | true => exact absurd (by simpa using hk) h.1
      | false => exact ih h.2

/-- Cache lookups that succeed keep succeeding as the per-call cache
grows, so a unit's cached output is stable for the whole call. -/
theorem resolve_mono {input : Val} {c1 c2 : List (String × Val)}
    (h : ∀ k v, c1.lookup k = some v → c2.lookup k = some v) :
    ∀ s v, resolve input c1 s = some v → resolve input c2 s = some v := by
  intro s v hr
  cases s with
  | input => exact hr
  | unit n => exact h n v hr

theorem mapM_resolve_mono {input : Val} {c1 c2 : List (String × Val)}
    (h : ∀ k v, c1.lookup k = some v → c2.lookup k = some v) :
    ∀ (ss : List Src) (vs : List Val),
      ss.mapM (resolve input c1) = some vs →
      ss.mapM (resolve input c2) = some vs := by
  intro ss
  induction ss with
  | nil => intro vs hv; simpa using hv
  | cons s ss ih =>
    intro vs hv
    rw [List.mapM_cons] at hv ⊢
    cases hr : resolve input c1 s with
    | none => rw [hr] at hv; simp at hv
    | some v =>
      rw [hr] at hv
      rw [resolve_mono h s v hr]
      cases hm : ss.mapM (resolve input c1) with
      | none => rw [hm] at hv; simp at hv
      | some vs2 =>
        rw [hm] at hv
        rw [ih vs2 hm]
        simpa using hv

theorem gather_mono {input : Val} {c1 c2 : List (String × Val)}
    (h : ∀ k v, c1.lookup k = some v → c2.lookup k = some v) :
    ∀ (ss : List Src) (v : Val),
      gather input c1 ss = some v → gather input c2 ss = some v := by
  intro ss v hv
  cases ss with
  | nil =>
    simpa [gather] using hv
  | cons s ss2 =>
    cases ss2 with
    | nil => exact resolve_mono h s v hv
    | cons s2 ss3 =>
      have e1 : gather input c1 (s :: s2 :: ss3) =
          Option.map Val.tuple ((s :: s2 :: ss3).mapM (resolve input c1)) :=
        rfl
      have e2 : gather input c2 (s :: s2 :: ss3) =
          Option.map Val.tuple ((s :: s2 :: ss3).mapM (resolve input c2)) :=
        rfl
      rw [e1] at hv
      rw [e2]
      cases hm : (s :: s2 :: ss3).mapM (resolve input c1) with
      | none => rw [hm] at hv; simp at hv
      | some vs =>
        rw [hm] at hv
        rw [mapM_resolve_mono h _ vs hm]
        exact hv

/-- Updating the state of the unit named `n` never changes any unit's
name. -/
theorem updState_pred_eq (n m : String) (s' : Val) :
    ((fun x : GraphEntry => x.name == m) ∘ fun x : GraphEntry =>
      if x.name == n then { x with block := { x.block with state := s' } }
      else x) = fun x : GraphEntry => x.name == m := by
  funext y
  simp only [Function.comp_apply]
  by_cases hy : (y.name == n) = true
  · rw [if_pos hy]
  · rw [if_neg hy]

/-- `updState` does not touch units with a different name. -/
theorem find_updState_ne {es : List GraphEntry} {n m : String} {s' : Val}
    (h : m ≠ n) :
    (updState n s' es).find? (fun x => x.name == m) =
      es.find? (fun x => x.name == m) := by
  unfold updState
  rw [List.find?_map, updState_pred_eq n m s']
  cases hf : es.find? (fun x => x.name == m) with
  | none => rfl
  | some e =>
    have hem := List.find?_some hf
    simp only at hem
    have hen : ¬ (e.name == n) = true := by
      intro hh
      exact h (by rw [← (by simpa using hem : e.name = m)]; simpa using hh)
    show some (if e.name == n then _ else e) = some e
    rw [if_neg hen]

/-- `updState` replaces exactly the state of the unit it names. -/
theorem find_updState_self {es : List GraphEntry} {n : String}
    {e : GraphEntry} {s' : Val}
    (h : es.find? (fun x => x.name == n) = some e) :
    (updState n s' es).find? (fun x => x.name == n) =
      some { e with block := { e.block with state := s' } } := by
  unfold updState
  rw [List.find?_map, updState_pred_eq n n s', h]
  have hen := List.find?_some h
  simp only at hen
  show some (if e.name == n then _ else e) = _
  rw [if_pos hen]

/-- One scheduled name with no matching unit halts evaluation. -/
theorem runOrder_cons_notfound {input : Val} {n : String}
    {rest : List String} {es : List GraphEntry}
    {cache : List (String × Val)}
    (hfind : es.find? (fun x => x.name == n) = none) :
    runOrder input (n :: rest) es cache =
      Except.error (PipelineError.missing n) := by
  show (match es.find? (fun x => x.name == n) with
    | none => Except.error (PipelineError.missing n)
    | some e =>
      match gather input cache e.upstream with
      | none => Except.error (PipelineError.missing n)
      | some vin =>
        match e.block.step e.block.state vin with
        | .error se => Except.error (PipelineError.shape se)
        | .ok (s', out) =>
          runOrder input rest (updState n s' es) (cache ++ [(n, out)])) = _
  rw [hfind]

/-- Evaluation of one found unit, before resolving its inputs. -/
theorem runOrder_cons_found {input : Val} {n : String}
    {rest : List String} {es : List GraphEntry}
    {cache : List (String × Val)} {e : GraphEntry}
    (hfind : es.find? (fun x => x.name == n) = some e) :
    runOrder input (n :: rest) es cache =
      match gather input cache e.upstream with
      | none => Except.error (PipelineError.missing n)
      | some vin =>
        match e.block.step e.block.state vin with
        | .error se => Except.error (PipelineError.shape se)
        | .ok (s', out) =>
          runOrder input rest (updState n s' es) (cache ++ [(n, out)]) := by
  show (match es.find? (fun x => x.name == n) with
    | none => Except.error (PipelineError.missing n)
    | some e =>
      match gather input cache e.upstream with
      | none => Except.error (PipelineError.missing n)
      | some vin =>
        match e.block.step e.block.state vin with
        | .error se => Except.error (PipelineError.shape se)
        | .ok (s', out) =>
          runOrder input rest (updState n s' es) (cache ++ [(n, out)])) = _
  rw [hfind]

/-- One successful unit step advances the evaluation. -/
theorem runOrder_cons_step {input : Val} {n : String}
    {rest : List String} {es : List GraphEntry}
    {cache : List (String × Val)} {e : GraphEntry} {vin s' vout : Val}
    (hfind : es.find? (fun x => x.name == n) = some e)
    (hg : gather input cache e.upstream = some vin)
    (hstep : e.block.step e.block.state vin = Except.ok (s', vout)) :
    runOrder input (n :: rest) es cache =
      runOrder input rest (updState n s' es) (cache ++ [(n, vout)]) := by
  rw [runOrder_cons_found hfind, hg]
  show (match e.block.step e.block.state vin with
    | .error se => Except.error (PipelineError.shape se)
    | .ok (s', out) =>
      runOrder input rest (updState n s' es) (cache ++ [(n, out)])) = _
  rw [hstep]

/-- A unit whose step raises a `ShapeError` makes the whole evaluation
return that error. -/
theorem runOrder_cons_shape_error {input : Val} {n : String}
    {rest : List String} {es : List GraphEntry}
    {cache : List (String × Val)} {e : GraphEntry} {vin : Val}
    {se : ShapeError}
    (hfind : es.find? (fun x => x.name == n) = some e)
    (hg : gather input cache e.upstream = some vin)
    (hstep : e.block.step e.block.state vin = Except.error se) :
    runOrder input (n :: rest) es cache =
      Except.error (PipelineError.shape se) := by
  rw [runOrder_cons_found hfind, hg]
  show (match e.block.step e.block.state vin with
    | .error se => Except.error (PipelineError.shape se)
    | .ok (s', out) =>
      runOrder input rest (updState n s' es) (cache ++ [(n, out)])) = _
  rw [hstep]

/-- An unresolvable upstream halts evaluation. -/
theorem runOrder_cons_nogather {input : Val} {n : String}
    {rest : List String} {es : List GraphEntry}
    {cache : List (String × Val)} {e : GraphEntry}
    (hfind : es.find? (fun x => x.name == n) = some e)
    (hg : gather input cache e.upstream = none) :
    runOrder input (n :: rest) es cache =
      Except.error (PipelineError.missing n) := by
  rw [runOrder_cons_found hfind, hg]

/-- Master specification of `runOrder` on a duplicate-free schedule with
fresh cache keys: the per-call cache lists exactly the scheduled names
in evaluation order, earlier cache entries survive, unscheduled units
are untouched, and every scheduled unit is stepped exactly once on the
input gathered from the cache, its output cached under its name. -/
theorem runOrder_ok_spec (input : Val) :
    ∀ (rest : List String) (es es' : List GraphEntry)
      (cache cache' : List (String × Val)),
    rest.Nodup →
    (∀ n ∈ rest, n ∉ cache.map Prod.fst) →
    runOrder input rest es cache = Except.ok (es', cache') →
    cache'.map Prod.fst = cache.map Prod.fst ++ rest ∧
    (∀ k v, cache.lookup k = some v → cache'.lookup k = some v) ∧
    (∀ k, k ∉ rest → es'.find? (fun x => x.name == k) =
      es.find? (fun x => x.name == k)) ∧
    (∀ n ∈ rest, ∃ e vin s' vout,
      es.find? (fun x => x.name == n) = some e ∧
      gather input cache' e.upstream = some vin ∧
      e.block.step e.block.state vin = Except.ok (s', vout) ∧
      cache'.lookup n = some vout ∧
      es'.find? (fun x => x.name == n) =
        some { e with block := { e.block with state := s' } }) := by
  intro rest
  induction rest with
  | nil =>
    intro es es' cache cache' hnd hkeys hrun
    obtain ⟨rfl, rfl⟩ : es = es' ∧ cache = cache' := by
      simpa [runOrder] using hrun
    refine ⟨by simp, fun k v hv => hv, fun k _ => rfl, by simp⟩
  | cons n rest ih =>
    intro es es' cache cache' hnd hkeys hrun
    obtain ⟨hn_rest, hnd'⟩ := List.nodup_cons.mp hnd
    cases hfind : es.find? (fun x => x.name == n) with
    | none =>
      rw [runOrder_cons_notfound hfind] at hrun
      cases hrun
    | some e =>
      cases hg : gather input cache e.upstream with
      | none =>
        rw [runOrder_cons_nogather hfind hg] at hrun
        cases hrun
      | some vin =>
        cases hstep : e.block.step e.block.state vin with
        | error se =>
          rw [runOrder_cons_shape_error hfind hg hstep] at hrun
          cases hrun
        | ok r =>
          cases r with
          | mk s' vout =>
            rw [runOrder_cons_step hfind hg hstep] at hrun
            have hkeys' : ∀ m ∈ rest,
                m ∉ (cache ++ [(n, vout)]).map Prod.fst := by
              intro m hm
              rw [List.map_append]
              intro hmem
              rcases List.mem_append.mp hmem with h1 | h2
              · exact hkeys m (List.mem_cons_of_mem _ hm) h1
              · simp only [List.map_cons, List.map_nil,
                  List.mem_singleton] at h2
                exact hn_rest (h2 ▸ hm)
            obtain ⟨ih1, ih2, ih3, ih4⟩ :=
              ih (updState n s' es) es' (cache ++ [(n, vout)]) cache'
                hnd' hkeys' hrun
            have monoF : ∀ k v, cache.lookup k = some v →
                cache'.lookup k = some v :=
              fun k v hv => ih2 k v (lookup_append_left hv)
            have hlkn : (cache ++ [(n, vout)]).lookup n = some vout := by
              rw [lookup_append_right (lookup_eq_none_of_not_mem
                (hkeys n (List.mem_cons_self _ _)))]
              simp [List.lookup]
            refine ⟨?_, monoF, ?_, ?_⟩
            · rw [ih1, List.map_append]
              simp
            · intro k hk
              have hk_rest : k ∉ rest := fun hh =>
                hk (List.mem_cons_of_mem _ hh)
              have hk_n : k ≠ n := fun hh => hk (hh ▸ List.mem_cons_self _ _)
              rw [ih3 k hk_rest, find_updState_ne hk_n]
            · intro m hm
              rcases List.mem_cons.mp hm with rfl | hm2
              · refine ⟨e, vin, s', vout, hfind, ?_, hstep,
                  ih2 _ _ hlkn, ?_⟩
                · exact gather_mono monoF e.upstream vin hg
                · rw [ih3 m hn_rest]
                  exact find_updState_self hfind
              · obtain ⟨e2, vin2, s2, vout2, hf2, hg2, hs2, hl2, he2⟩ :=
                  ih4 m hm2
                have hm_n : m ≠ n := fun hh => hn_rest (hh ▸ hm2)
                rw [find_updState_ne hm_n] at hf2
                exact ⟨e2, vin2, s2, vout2, hf2, hg2, hs2, hl2, he2⟩

/-- Evaluation of a concatenated schedule runs the first part, then the
second from the resulting entries and cache. -/
theorem runOrder_append (input : Val) (xs ys : List String) :
    ∀ (es : List GraphEntry) (cache : List (String × Val)),
    runOrder input (xs ++ ys) es cache =
      match runOrder input xs es cache with
      | .error err => .error err
      | .ok (es', c') => runOrder input ys es' c' := by
  induction xs with
  | nil => intro es cache; simp [runOrder]
  | cons n xs ih =>
    intro es cache
    rw [List.cons_append]
    cases hfind : es.find? (fun x => x.name == n) with
    | none => rw [runOrder_cons_notfound hfind, runOrder_cons_notfound hfind]
    | some e =>
      cases hg : gather input cache e.upstream with
      | none =>
        rw [runOrder_cons_nogather hfind hg, runOrder_cons_nogather hfind hg]
      | some vin =>
        cases hstep : e.block.step e.block.state vin with
        | error se =>
          rw [runOrder_cons_shape_error hfind hg hstep,
            runOrder_cons_shape_error hfind hg hstep]
        | ok r =>
          cases r with
          | mk s' vout =>
            rw [runOrder_cons_step hfind hg hstep,
              runOrder_cons_step hfind hg hstep]
            exact ih (updState n s' es) (cache ++ [(n, vout)])

/-- What a successful construction guarantees: the pipeline holds the
graph, a cached topological order and the unique terminal. -/
theorem build_ok_spec {g : List GraphEntry} {p : Pipeline}
    (h : build g = Except.ok p) :
    p.entries = g ∧ topoSort g = some p.order ∧
    (g.map GraphEntry.name).Nodup ∧ terminals g = [p.terminal] := by
  unfold build at h
  by_cases hnd : (g.map GraphEntry.name).Nodup
  · rw [if_pos hnd] at h
    cases hr : refsOkB g with
    | false => rw [hr] at h; cases h
    | true =>
      rw [hr] at h
      simp only [if_true] at h
      cases hts : topoSort g with
      | none => rw [hts] at h; cases h
      | some ord =>
        rw [hts] at h
        cases htl : terminals g with
        | nil => rw [htl] at h; cases h
        | cons t ts =>
          cases ts with
          | nil =>
            rw [htl] at h
            obtain rfl : (⟨g, ord, t⟩ : Pipeline) = p := by
              simpa using h
            exact ⟨rfl, rfl, hnd, rfl⟩
          | cons t2 ts2 => rw [htl] at h; cases h
  · rw [if_neg hnd] at h
    cases h

/-- Two pipelines with the same units, order and terminal are equal (the
pipeline holds no other state, in particular no per-call cache). -/
theorem pipeline_eq_of_fields (q r : Pipeline)
    (h1 : q.entries = r.entries) (h2 : q.order = r.order)
    (h3 : q.terminal = r.terminal) : q = r := by
  cases q
  cases r
  simp only at h1 h2 h3
  rw [h1, h2, h3]

/-- C7: on a validly constructed pipeline, a successful `process` call
evaluates the units of the cached topological order exactly once each
and in that order (the per-call cache keys are the order, which has no
duplicates and covers every unit); each unit is stepped exactly once on
the value gathered from the external input and the cached upstream
outputs (the sentinel resolves to the external input, several upstreams
arrive as a tuple in declared order, and all consumers of a unit read
the same single cached output); the terminal's cached output is
returned; and the result of a later call depends only on the pipeline's
fields, there being no cache retained across calls. -/
theorem C7_pipeline_execution (g : List GraphEntry) (p p' : Pipeline)
    (input input2 out : Val)
    (hb : build g = Except.ok p)
    (hp : p.process input = Except.ok (p', out)) :
    p.order.Nodup ∧
    (∀ e ∈ p.entries, e.name ∈ p.order) ∧
    ∃ cache,
      runOrder input p.order p.entries [] = Except.ok (p'.entries, cache) ∧
      cache.map Prod.fst = p.order ∧
      cache.lookup p.terminal = some out ∧
      (∀ n ∈ p.order, ∃ e vin s' vout,
        p.entries.find? (fun x => x.name == n) = some e ∧
        gather input cache e.upstream = some vin ∧
        e.block.step e.block.state vin = Except.ok (s', vout) ∧
        cache.lookup n = some vout ∧
        p'.entries.find? (fun x => x.name == n) =
          some { e with block := { e.block with state := s' } }) ∧
      (∀ q : Pipeline, q.entries = p'.entries → q.order = p'.order →
        q.terminal = p'.terminal → q.process input2 = p'.process input2) := by
  obtain ⟨hpe, hts, hnd, -⟩ := build_ok_spec hb
  obtain ⟨hord_nd, hcomp, -⟩ := topoSort_spec g hnd p.order hts
  unfold Pipeline.process at hp
  cases hro : runOrder input p.order p.entries [] with
  | error err => rw [hro] at hp; cases hp
  | ok r =>
    rw [hro] at hp
    cases r with
    | mk es cache =>
      simp only at hp
      cases hlk : cache.lookup p.terminal with
      | none => rw [hlk] at hp; cases hp
      | some o =>
        rw [hlk] at hp
        simp only [Except.ok.injEq, Prod.mk.injEq] at hp
        obtain ⟨hp1, rfl⟩ := hp
        have hpe' : p'.entries = es := by rw [← hp1]
        obtain ⟨r1, -, -, r4⟩ := runOrder_ok_spec input p.order p.entries es
          [] cache hord_nd (by simp) hro
        refine ⟨hord_nd, fun e he => hcomp e (hpe ▸ he), cache,
          by rw [hpe'], by simpa using r1, hlk, ?_, ?_⟩
        · intro n hn
          obtain ⟨e, vin, s', vout, hf, hg2, hs2, hl2, he2⟩ := r4 n hn
          exact ⟨e, vin, s', vout, hf, hg2, hs2, hl2, by rw [hpe']; exact he2⟩
        · intro q hq1 hq2 hq3
          rw [pipeline_eq_of_fields q p' hq1 hq2 hq3]

/-- A fan-out / fan-in diamond: `a` reads the external input, `b` and
`c` both consume `a`, and the terminal `d` consumes `b` and `c` in
declared order. -/
def fanGraph : List GraphEntry :=
  [⟨"a", Passthrough, [Src.input]⟩,
   ⟨"b", Passthrough, [Src.unit "a"]⟩,
   ⟨"c", Passthrough, [Src.unit "a"]⟩,
   ⟨"d", Passthrough, [Src.unit "b", Src.unit "c"]⟩]

/-- The pipeline `build` constructs from `fanGraph`. -/
def fanPipe : Pipeline := ⟨fanGraph, ["a", "b", "c", "d"], "d"⟩

/-- C7 witness: the diamond pipeline built from `fanGraph`, processing a
concrete chunk; both hypotheses are discharged by computation. -/
theorem C7_pipeline_execution_witness :
    fanPipe.order.Nodup ∧
    (∀ e ∈ fanPipe.entries, e.name ∈ fanPipe.order) ∧
    ∃ cache,
      runOrder (Val.arr [[1]]) fanPipe.order fanPipe.entries [] =
        Except.ok (fanPipe.entries, cache) ∧
      cache.map Prod.fst = fanPipe.order ∧
      cache.lookup fanPipe.terminal =
        some (Val.tuple [Val.arr [[1]], Val.arr [[1]]]) ∧
      (∀ n ∈ fanPipe.order, ∃ e vin s' vout,
        fanPipe.entries.find? (fun x => x.name == n) = some e ∧
        gather (Val.arr [[1]]) cache e.upstream = some vin ∧
        e.block.step e.block.state vin = Except.ok (s', vout) ∧
        cache.lookup n = some vout ∧
        fanPipe.entries.find? (fun x => x.name == n) =
          some { e with block := { e.block with state := s' } }) ∧
      (∀ q : Pipeline, q.entries = fanPipe.entries →
        q.order = fanPipe.order → q.terminal = fanPipe.terminal →
        q.process (Val.arr [[2]]) = fanPipe.process (Val.arr [[2]])) :=
  C7_pipeline_execution fanGraph fanPipe fanPipe (Val.arr [[1]])
    (Val.arr [[2]]) (Val.tuple [Val.arr [[1]], Val.arr [[1]]]) rfl rfl

/-- A successfully evaluated prefix of the schedule hands its entries
and cache to the rest of the schedule. -/
theorem runOrder_append_ok {input : Val} {xs ys : List String}
    {es es1 : List GraphEntry} {cache c1 : List (String × Val)}
    (h : runOrder input xs es cache = Except.ok (es1, c1)) :
    runOrder input (xs ++ ys) es cache = runOrder input ys es1 c1 := by
  rw [runOrder_append, h]

/-- C8: whenever a unit's step raises a `ShapeError` mid-call — the
units before it in the schedule having evaluated normally — the whole
`process` call returns exactly that error: it is propagated
synchronously to the external caller, no later unit runs, the failing
unit is not retried, and the error is never swallowed. -/
theorem C8_shape_error_propagation (p : Pipeline) (input : Val)
    (pre post : List String) (n : String) (es : List GraphEntry)
    (cache : List (String × Val)) (e : GraphEntry) (vin : Val)
    (se : ShapeError)
    (hord : p.order = pre ++ n :: post)
    (hpre : runOrder input pre p.entries [] = Except.ok (es, cache))
    (hfind : es.find? (fun x => x.name == n) = some e)
    (hgather : gather input cache e.upstream = some vin)
    (hstep : e.block.step e.block.state vin = Except.error se) :
    p.process input = Except.error (PipelineError.shape se) := by
  unfold Pipeline.process
  rw [hord, runOrder_append_ok hpre,
    runOrder_cons_shape_error hfind hgather hstep]

/-- A single-unit pipeline whose unit requires two channels. -/
def guardGraph : List GraphEntry :=
  [⟨"u", channelCheck 2, [Src.input]⟩]

/-- The pipeline `build` constructs from `guardGraph`. -/
def guardPipe : Pipeline := ⟨guardGraph, ["u"], "u"⟩

/-- C8 witness: feeding a one-channel chunk to the two-channel guard
raises a `ShapeError` that `process` returns to the caller. -/
theorem C8_shape_error_propagation_witness :
    guardPipe.process (Val.arr [[1]]) =
      Except.error (PipelineError.shape (ShapeError.badChannels 2 1)) :=
  C8_shape_error_propagation guardPipe (Val.arr [[1]]) [] [] "u"
    guardGraph [] (⟨"u", channelCheck 2, [Src.input]⟩) (Val.arr [[1]])
    (ShapeError.badChannels 2 1) rfl rfl rfl rfl rfl

/-! ### Consumer task lemmas and claims -/

theorem Oscilloscope.osc_update_none {t : Oscilloscope} {data : Val}
    (h : t.pipeline = none) :
    t.update data = Except.ok { t with plotted := t.plotted ++ [data] } := by
  unfold update
  rw [h]

theorem Oscilloscope.osc_update_some {t : Oscilloscope} {data : Val}
    {pl : Pipeline} (h : t.pipeline = some pl) :
    t.update data =
      match pl.process data with
      | .error err => .error err
      | .ok (pl', out) =>
        .ok { t with pipeline := some pl', plotted := t.plotted ++ [out] } := by
  unfold update
  rw [h]

theorem BarPlotter.bar_update_none {t : BarPlotter} {data : Val}
    (h : t.pipeline = none) :
    t.update data = Except.ok { t with plotted := t.plotted ++ [data] } := by
  unfold update
  rw [h]

theorem BarPlotter.bar_update_some {t : BarPlotter} {data : Val}
    {pl : Pipeline} (h : t.pipeline = some pl) :
    t.update data =
      match pl.process data with
      | .error err => .error err
      | .ok (pl', out) =>
        .ok { t with pipeline := some pl', plotted := t.plotted ++ [out] } := by
  unfold update
  rw [h]

theorem PolarPlotter.polar_update_none {t : PolarPlotter} {data : Val}
    (h : t.pipeline = none) :
    t.update data = Except.ok { t with plotted := t.plotted ++ [data] } := by
  unfold update
  rw [h]

theorem PolarPlotter.polar_update_some {t : PolarPlotter} {data : Val}
    {pl : Pipeline} (h : t.pipeline = some pl) :
    t.update data =
      match pl.process data with
      | .error err => .error err
      | .ok (pl', out) =>
        .ok { t with pipeline := some pl', plotted := t.plotted ++ [out] } := by
  unfold update
  rw [h]

/-- C9: each consumer task's `update` plots the data unchanged when no
pipeline is configured, plots exactly `pipeline.process(data)` when one
is, and propagates a pipeline error without plotting; the pipeline is
touched only through `process`, so the task state never depends on unit
internals. -/
theorem C9_consumers_plot_process (t : Oscilloscope) (b : BarPlotter)
    (pp : PolarPlotter) (data : Val) :
    ((t.pipeline = none →
      t.update data = Except.ok { t with plotted := t.plotted ++ [data] }) ∧
     (∀ pl pl' out, t.pipeline = some pl →
      pl.process data = Except.ok (pl', out) →
      t.update data = Except.ok
        { t with pipeline := some pl', plotted := t.plotted ++ [out] }) ∧
     (∀ pl err, t.pipeline = some pl →
      pl.process data = Except.error err →
      t.update data = Except.error err)) ∧
    ((b.pipeline = none →
      b.update data = Except.ok { b with plotted := b.plotted ++ [data] }) ∧
     (∀ pl pl' out, b.pipeline = some pl →
      pl.process data = Except.ok (pl', out) →
      b.update data = Except.ok
        { b with pipeline := some pl', plotted := b.plotted ++ [out] }) ∧
     (∀ pl err, b.pipeline = some pl →
      pl.process data = Except.error err →
      b.update data = Except.error err)) ∧
    ((pp.pipeline = none →
      pp.update data = Except.ok { pp with plotted := pp.plotted ++ [data] }) ∧
     (∀ pl pl' out, pp.pipeline = some pl →
      pl.process data = Except.ok (pl', out) →
      pp.update data = Except.ok
        { pp with pipeline := some pl', plotted := pp.plotted ++ [out] }) ∧
     (∀ pl err, pp.pipeline = some pl →
      pl.process data = Except.error err →
      pp.update data = Except.error err)) := by
  refine ⟨⟨fun h => Oscilloscope.osc_update_none h, ?_, ?_⟩,
    ⟨fun h => BarPlotter.bar_update_none h, ?_, ?_⟩,
    ⟨fun h => PolarPlotter.polar_update_none h, ?_, ?_⟩⟩
  · intro pl pl' out h1 h2
    rw [Oscilloscope.osc_update_some h1, h2]
  · intro pl err h1 h2
    rw [Oscilloscope.osc_update_some h1, h2]
  · intro pl pl' out h1 h2
    rw [BarPlotter.bar_update_some h1, h2]
  · intro pl err h1 h2
    rw [BarPlotter.bar_update_some h1, h2]
  · intro pl pl' out h1 h2
    rw [PolarPlotter.polar_update_some h1, h2]
  · intro pl err h1 h2
    rw [PolarPlotter.polar_update_some h1, h2]

/-- C9 witness: an `Oscilloscope` with the diamond pipeline, a
`BarPlotter` and `PolarPlotter` without one, fed one concrete chunk. -/
theorem C9_consumers_plot_process_witness :
    (((⟨some fanPipe, [], true, false⟩ : Oscilloscope).pipeline = none →
      (⟨some fanPipe, [], true, false⟩ : Oscilloscope).update (Val.arr [[1]]) =
        Except.ok ⟨some fanPipe, [] ++ [Val.arr [[1]]], true, false⟩) ∧
     (∀ pl pl' out,
      (⟨some fanPipe, [], true, false⟩ : Oscilloscope).pipeline = some pl →
      pl.process (Val.arr [[1]]) = Except.ok (pl', out) →
      (⟨some fanPipe, [], true, false⟩ : Oscilloscope).update (Val.arr [[1]]) =
        Except.ok ⟨some pl', [] ++ [out], true, false⟩) ∧
     (∀ pl err,
      (⟨some fanPipe, [], true, false⟩ : Oscilloscope).pipeline = some pl →
      pl.process (Val.arr [[1]]) = Except.error err →
      (⟨some fanPipe, [], true, false⟩ : Oscilloscope).update (Val.arr [[1]]) =
        Except.error err)) ∧
    (((⟨none, [], true, false⟩ : BarPlotter).pipeline = none →
      (⟨none, [], true, false⟩ : BarPlotter).update (Val.arr [[1]]) =
        Except.ok ⟨none, [] ++ [Val.arr [[1]]], true, false⟩) ∧
     (∀ pl pl' out,
      (⟨none, [], true, false⟩ : BarPlotter).pipeline = some pl →
      pl.process (Val.arr [[1]]) = Except.ok (pl', out) →
      (⟨none, [], true, false⟩ : BarPlotter).update (Val.arr [[1]]) =
        Except.ok ⟨some pl', [] ++ [out], true, false⟩) ∧
     (∀ pl err,
      (⟨none, [], true, false⟩ : BarPlotter).pipeline = some pl →
      pl.process (Val.arr [[1]]) = Except.error err →
      (⟨none, [], true, false⟩ : BarPlotter).update (Val.arr [[1]]) =
        Except.error err)) ∧
    (((⟨none, [], true, false⟩ : PolarPlotter).pipeline = none →
      (⟨none, [], true, false⟩ : PolarPlotter).update (Val.arr [[1]]) =
        Except.ok ⟨none, [] ++ [Val.arr [[1]]], true, false⟩) ∧
     (∀ pl pl' out,
      (⟨none, [], true, false⟩ : PolarPlotter).pipeline = some pl →
      pl.process (Val.arr [[1]]) = Except.ok (pl', out) →
      (⟨none, [], true, false⟩ : PolarPlotter).update (Val.arr [[1]]) =
        Except.ok ⟨some pl', [] ++ [out], true, false⟩) ∧
     (∀ pl err,
      (⟨none, [], true, false⟩ : PolarPlotter).pipeline = some pl →
      pl.process (Val.arr [[1]]) = Except.error err →
      (⟨none, [], true, false⟩ : PolarPlotter).update (Val.arr [[1]]) =
        Except.error err)) :=
  C9_consumers_plot_process ⟨some fanPipe, [], true, false⟩
    ⟨none, [], true, false⟩ ⟨none, [], true, false⟩ (Val.arr [[1]])

/-- C10: for each consumer task, `key_press` stops the daqstream and
finishes the task exactly when the key is `key_return`, and leaves the
task entirely unchanged on every other key. -/
theorem C10_key_press_return_only (t : Oscilloscope) (b : BarPlotter)
    (pp : PolarPlotter) (key : String) :
    (key = key_return →
      t.key_press key = { t with daqRunning := false, finished := true } ∧
      b.key_press key = { b with daqRunning := false, finished := true } ∧
      pp.key_press key = { pp with daqRunning := false, finished := true }) ∧
    (key ≠ key_return →
      t.key_press key = t ∧ b.key_press key = b ∧ pp.key_press key = pp) := by
  constructor
  · intro h
    unfold Oscilloscope.key_press BarPlotter.key_press PolarPlotter.key_press
    rw [if_pos h, if_pos h, if_pos h]
    exact ⟨rfl, rfl, rfl⟩
  · intro h
    unfold Oscilloscope.key_press BarPlotter.key_press PolarPlotter.key_press
    rw [if_neg h, if_neg h, if_neg h]
    exact ⟨rfl, rfl, rfl⟩

/-- C10 witness: concrete tasks, pressing the return key and another
key. -/
theorem C10_key_press_return_only_witness :
    ((key_return : String) = key_return →
      (⟨none, [], true, false⟩ : Oscilloscope).key_press key_return =
        ⟨none, [], false, true⟩ ∧
      (⟨none, [], true, false⟩ : BarPlotter).key_press key_return =
        ⟨none, [], false, true⟩ ∧
      (⟨none, [], true, false⟩ : PolarPlotter).key_press key_return =
        ⟨none, [], false, true⟩) ∧
    ((key_return : String) ≠ key_return →
      (⟨none, [], true, false⟩ : Oscilloscope).key_press key_return =
        ⟨none, [], true, false⟩ ∧
      (⟨none, [], true, false⟩ : BarPlotter).key_press key_return =
        ⟨none, [], true, false⟩ ∧
      (⟨none, [], true, false⟩ : PolarPlotter).key_press key_return =
        ⟨none, [], true, false⟩) :=
  C10_key_press_return_only ⟨none, [], true, false⟩ ⟨none, [], true, false⟩
    ⟨none, [], true, false⟩ key_return
